import Mathlib

/-!
Shallow embedding of the zenodo2commons text pipeline:
* `src/src/utils/htmlToWiki.js` — the HTML → wiki-markup converter
  (`cleanDescription`, `convertTableToWikiMarkup`, `convertInlineFormatting`);
* the URL budgeter (`isUrlTooLong`, `truncateTables`, `truncateDescription`,
  `buildFullMetadata`, `buildConstrainedUploadUrl`).

JavaScript strings are modelled as `List Char` (one entry per UTF-16 code
unit; identical to code points for the BMP inputs considered here), with the
JS string operations (`split`, `includes`, `startsWith`, `trim`, `substring`,
`slice`/`join`) implemented explicitly so that every definition is executable
and kernel-reducible.  `URLSearchParams.toString()` is modelled by the WHATWG
`application/x-www-form-urlencoded` serializer: space becomes `+`, ASCII
alphanumerics and `*`, `-`, `.`, `_` pass through, everything else is
percent-encoded from its UTF-8 bytes with uppercase hex digits.
-/

/-- Coerce a Lean string literal to the `List Char` model of JS strings. -/
def str (s : String) : List Char := s.data

/-- JS `haystack.includes(needle)`. -/
def jsIncludes (needle : List Char) : List Char → Bool
  | [] => needle.isPrefixOf ([] : List Char)
  | x :: xs => needle.isPrefixOf (x :: xs) || jsIncludes needle xs

/-- Recursion core of `splitSeq`; `fuel` bounds the number of scanning
steps (one unit per character consumed, so the input length suffices). -/
def splitSeqAux (sep : List Char) : Nat → List Char → List (List Char)
  | _, [] => [[]]
  | 0, l => [l]
  | fuel + 1, x :: xs =>
    if sep ≠ [] ∧ sep.isPrefixOf (x :: xs) then
      [] :: splitSeqAux sep fuel (List.drop (sep.length - 1) xs)
    else
      match splitSeqAux sep fuel xs with
      | [] => [[x]]
      | h :: t => (x :: h) :: t

/-- JS `s.split(sep)` for a non-empty separator string `sep`
(leftmost, non-overlapping occurrences). -/
def splitSeq (sep : List Char) (l : List Char) : List (List Char) :=
  splitSeqAux sep l.length l

/-- JS `array.join(sep)`. -/
def jsJoin (sep : List Char) (xs : List (List Char)) : List Char :=
  List.intercalate sep xs

/-- Whitespace characters trimmed by JS `String.prototype.trim` (ASCII part). -/
def wsChar (c : Char) : Bool :=
  c = ' ' || c = '\t' || c = '\n' || c = '\r' ||
    c = Char.ofNat 11 || c = Char.ofNat 12

/-- JS `s.trim()`. -/
def jsTrim (l : List Char) : List Char :=
  ((l.dropWhile wsChar).reverse.dropWhile wsChar).reverse

/-- Uppercase hexadecimal digit, as produced by the urlencoded serializer. -/
def hexDigit (n : Nat) : Char :=
  if n < 10 then Char.ofNat (48 + n) else Char.ofNat (55 + n)

/-- Percent-encoding of one byte. -/
def percentByte (b : Nat) : List Char :=
  ['%', hexDigit (b / 16), hexDigit (b % 16)]

/-- UTF-8 bytes of a Unicode scalar value. -/
def utf8Bytes (n : Nat) : List Nat :=
  if n < 128 then [n]
  else if n < 2048 then [192 + n / 64, 128 + n % 64]
  else if n < 65536 then [224 + n / 4096, 128 + (n / 64) % 64, 128 + n % 64]
  else [240 + n / 262144, 128 + (n / 4096) % 64, 128 + (n / 64) % 64, 128 + n % 64]

/-- Characters the urlencoded serializer leaves unescaped. -/
def urlSafeChar (c : Char) : Bool :=
  c.isAlphanum || c = '*' || c = '-' || c = '.' || c = '_'

/-- Serialization of one character by `URLSearchParams.toString()`. -/
def urlencodeChar (c : Char) : List Char :=
  if c = ' ' then ['+']
  else if urlSafeChar c then [c]
  else (utf8Bytes c.toNat).flatMap percentByte

/-- Serialization of one string value by `URLSearchParams.toString()`. -/
def urlencode (l : List Char) : List Char := l.flatMap urlencodeChar

/-! ## URL budgeter constants (top of the budgeter module) -/

/-- `const MAX_URL_LENGTH = 4000`. -/
def MAX_URL_LENGTH : Nat := 4000

/-- `const MIN_TABLE_LENGTH = 100`. -/
def MIN_TABLE_LENGTH : Int := 100

/-- `const URL_ENCODING_MARGIN = 100`. -/
def URL_ENCODING_MARGIN : Int := 100

/-- `isUrlTooLong(url)`: `url.length > MAX_URL_LENGTH`. -/
def isUrlTooLong (url : List Char) : Bool :=
  decide (MAX_URL_LENGTH < url.length)

/-! ## truncateTables -/

/-- The wikitable opening marker searched for by `truncateTables`. -/
def wikitableMarker : List Char := str "\x7b| class=\"wikitable\""

/-- Notice appended when whole trailing table blocks are removed. -/
def tablesTruncatedNote : List Char :=
  str "\n\n(Tables truncated due to length constraints. See full metadata at source.)"

/-- Closing marker plus notice appended when trailing rows are removed. -/
def tableRowNote : List Char :=
  str "\n|\x7d\n\n(Table truncated due to length constraints. See full metadata at source.)"

/-- Fixed sentence returned when no truncation fits. -/
def tablesOmittedNote : List Char :=
  str "(Metadata tables omitted due to length constraints. See full metadata at source.)"

/-- The `for (let i = tableStarts.length - 1; i > 0; i--)` loop of
`truncateTables`: `starts` is the list of candidate cut indices in the order
the loop visits them (table start indices after the first, reversed). -/
def multiTableCut (lines : List (List Char)) (maxLength : Int) :
    List Nat → Option (List Char)
  | [] => none
  | j :: rest =>
    let truncated := jsJoin (str "\n") (lines.take j) ++ tablesTruncatedNote
    if (truncated.length : Int) ≤ maxLength then some truncated
    else multiTableCut lines maxLength rest

/-- One iteration of the trailing-row removal loop of `truncateTables`:
the candidate produced at line index `i`, if accepted. -/
def rowCutCandidate (lines : List (List Char)) (maxLength : Int) (i : Nat) :
    Option (List Char) :=
  let line := lines.getD i []
  if line = str "|-" || (str "|").isPrefixOf line || (str "!").isPrefixOf line then
    let truncated := jsJoin (str "\n") (lines.take i) ++ tableRowNote
    if jsIncludes wikitableMarker truncated ∧ (truncated.length : Int) ≤ maxLength then
      some truncated
    else none
  else none

/-- The `for (let i = lines.length - 2; i >= 0; i--)` loop of `truncateTables`,
scanning downward from index `i`. -/
def rowCutLoop (lines : List (List Char)) (maxLength : Int) : Nat → Option (List Char)
  | 0 => rowCutCandidate lines maxLength 0
  | i + 1 =>
    match rowCutCandidate lines maxLength (i + 1) with
    | some r => some r
    | none => rowCutLoop lines maxLength i

/-- `truncateTables(tables, maxLength)` from the URL budgeter. -/
def truncateTables (tables : List Char) (maxLength : Int) : List Char :=
  if tables = [] ∨ (tables.length : Int) ≤ maxLength then tables
  else
    let lines := splitSeq (str "\n") tables
    let tableStarts :=
      (List.range lines.length).filter fun i => jsIncludes wikitableMarker (lines.getD i [])
    let afterMulti :=
      if 1 < tableStarts.length then
        multiTableCut lines maxLength (tableStarts.drop 1).reverse
      else none
    match afterMulti with
    | some r => r
    | none =>
      let afterRows :=
        if 2 ≤ lines.length then rowCutLoop lines maxLength (lines.length - 2) else none
      match afterRows with
      | some r => r
      | none =>
        let minTable := jsJoin (str "\n") (lines.take 2) ++ tableRowNote
        if jsIncludes wikitableMarker minTable ∧ (minTable.length : Int) ≤ maxLength then
          minTable
        else tablesOmittedNote

/-! ## truncateDescription -/

/-- Notice appended on the paragraph-boundary truncation path. -/
def descTruncationNote : List Char :=
  str "\n\n(Description truncated. See full description at source.)"

/-- Ellipsis notice used on the sentence-boundary and hard-truncation paths. -/
def ellipsisNote : List Char :=
  str "... (Description truncated. See full description at source.)"

/-- Sentence terminators of the regex `[^.!?]+[.!?]+`. -/
def isSentTerm (c : Char) : Bool := c = '.' || c = '!' || c = '?'

/-- Length of `dropWhile` never exceeds the input length. -/
theorem dropWhile_length_le {α : Type} (p : α → Bool) (l : List α) :
    (l.dropWhile p).length ≤ l.length := by
  induction l with
  | nil => simp
  | cons x xs ih =>
    cases h : p x
    · simp [List.dropWhile_cons, h]
    · simp only [List.dropWhile_cons, h, if_true]
      exact ih.trans (Nat.le_succ _)

/-- Recursion core of `matchSentences` (`fuel` bounds the scan; one unit
per character consumed, so the input length suffices). -/
def matchSentencesAux : Nat → List Char → List (List Char)
  | _, [] => []
  | 0, _ => []
  | fuel + 1, c :: cs =>
    if isSentTerm c then matchSentencesAux fuel cs
    else
      let a := (c :: cs).takeWhile fun x => !isSentTerm x
      let r1 := (c :: cs).dropWhile fun x => !isSentTerm x
      match r1 with
      | [] => []
      | _ :: _ =>
        let b := r1.takeWhile isSentTerm
        (a ++ b) :: matchSentencesAux fuel (r1.dropWhile isSentTerm)

/-- All matches of the global regex `/[^.!?]+[.!?]+/g`: maximal runs of
non-terminator characters followed by a maximal non-empty run of
terminators (a start inside a terminator run cannot begin a match, so the
scan skips it one character at a time, as the regex engine does). -/
def matchSentences (l : List Char) : List (List Char) :=
  matchSentencesAux l.length l

/-- The paragraph-accumulation loop of `truncateDescription` (`break` on
overflow returns the accumulator built so far). -/
def paraLoop (maxLength : Int) : List (List Char) → List Char → List Char
  | [], acc => acc
  | p :: ps, acc =>
    let next := if acc = [] then p else acc ++ str "\n\n" ++ p
    if maxLength < (next.length : Int) + (descTruncationNote.length : Int) then acc
    else paraLoop maxLength ps next

/-- The sentence-accumulation loop of `truncateDescription`. -/
def sentLoop (maxLength : Int) : List (List Char) → List Char → List Char
  | [], acc => acc
  | s :: ss, acc =>
    if maxLength < ((acc ++ s).length : Int) + (ellipsisNote.length : Int) then acc
    else sentLoop maxLength ss (acc ++ s)

/-- `truncateDescription(description, maxLength)` from the URL budgeter. -/
def truncateDescription (description : List Char) (maxLength : Int) : List Char :=
  if description = [] ∨ (description.length : Int) ≤ maxLength then description
  else
    let paragraphs := splitSeq (str "\n\n") description
    let truncated := paraLoop maxLength paragraphs []
    if truncated ≠ [] then truncated ++ descTruncationNote
    else
      let ms := matchSentences description
      let sentences := if ms = [] then [description] else ms
      let truncated2 := sentLoop maxLength sentences []
      if truncated2 ≠ [] then jsTrim truncated2 ++ ellipsisNote
      else
        let hardTruncateLength := maxLength - (ellipsisNote.length : Int)
        if 0 < hardTruncateLength then
          description.take hardTruncateLength.toNat ++ ellipsisNote
        else ellipsisNote

/-! ## Template and URL assembly -/

/-- The parameters object taken by `buildFullMetadata` and
`buildConstrainedUploadUrl`. -/
structure UploadParams where
  title : List Char
  description : List Char
  notes : List Char
  tables : List Char
  date : List Char
  source : List Char
  authors : List Char
  recordId : List Char
  commonsLicense : List Char
  destFile : List Char
  fileUrl : List Char

/-- The `{url, wasTruncated}` object returned by `buildConstrainedUploadUrl`. -/
structure BudgetResult where
  url : List Char
  wasTruncated : Bool
deriving DecidableEq

/-- The `buildInfoTemplate(desc, nts, tbl)` helper (identical to
`buildFullMetadata` up to parameter plumbing): the Information template,
record reference, categories, and optional appended tables.  JS truthiness
of the optional `nts`/`tbl` strings is the empty-string test. -/
def buildInfoTemplate (p : UploadParams) (desc nts tbl : List Char) : List Char :=
  let descriptionSection :=
    p.title ++ str ":\n" ++ desc ++ (if nts = [] then [] else str "\n\n" ++ nts)
  let template :=
    str "\x7b\x7bInformation\n|description=" ++ descriptionSection ++
    str "\n|date=" ++ p.date ++
    str "\n|source=" ++ p.source ++
    str "\n|author=" ++ p.authors ++
    str "\n|permission=\n|other versions=\n\x7d\x7d\n\x7b\x7bZenodo|" ++ p.recordId ++
    str "\x7d\x7d\n[[Category:Media from Zenodo]]\n[[Category:Uploaded with zenodo2commons]]"
  template ++ (if tbl = [] then [] else str "\n\n" ++ tbl)

/-- `buildFullMetadata(params)`: the unconstrained template. -/
def buildFullMetadata (p : UploadParams) : List Char :=
  buildInfoTemplate p p.description p.notes p.tables

/-- `URLSearchParams({wpUploadDescription, wpLicense, wpDestFile,
wpSourceType: "url", wpUploadFileURL}).toString()`; the parameter names and
the literal value `url` serialize to themselves (all their characters are
unescaped by the serializer). -/
def serializeQuery (tpl lic dest fu : List Char) : List Char :=
  str "wpUploadDescription=" ++ urlencode tpl ++
  str "&wpLicense=" ++ urlencode lic ++
  str "&wpDestFile=" ++ urlencode dest ++
  str "&wpSourceType=url&wpUploadFileURL=" ++ urlencode fu

/-- The fixed Special:Upload prefix of every produced URL. -/
def uploadBase : List Char := str "https://commons.wikimedia.org/wiki/Special:Upload?"

/-- The `buildUrl(infoTemplate)` helper of `buildConstrainedUploadUrl`. -/
def buildUploadUrl (p : UploadParams) (tpl : List Char) : List Char :=
  uploadBase ++ serializeQuery tpl p.commonsLicense p.destFile p.fileUrl

/-! ## The fallback ladder of buildConstrainedUploadUrl -/

/-- Step 1 candidate: URL with the full template. -/
def fullUrl (p : UploadParams) : List Char :=
  buildUploadUrl p (buildInfoTemplate p p.description p.notes p.tables)

/-- Step 3 candidate: URL with tables removed (also the step-2 "base"
skeleton whose length the code measures). -/
def urlNoTables (p : UploadParams) : List Char :=
  buildUploadUrl p (buildInfoTemplate p p.description p.notes [])

/-- `baseLength` of strategy 1: length of the URL built with empty tables. -/
def baseLength (p : UploadParams) : Nat := (urlNoTables p).length

/-- `remainingSpace = MAX_URL_LENGTH - baseLength - URL_ENCODING_MARGIN`. -/
def remainingSpace (p : UploadParams) : Int :=
  (MAX_URL_LENGTH : Int) - (baseLength p : Int) - URL_ENCODING_MARGIN

/-- `maxTableLength = Math.min(tables.length, Math.floor(remainingSpace *
TABLE_SPACE_RATIO))` with `TABLE_SPACE_RATIO = 0.4`.  For the integer
magnitudes reachable here (`|remainingSpace| ≤ MAX_URL_LENGTH + margin`),
IEEE-754 `Math.floor(n * 0.4)` agrees with the exact `⌊2n/5⌋`, which is how
the float product is modelled. -/
def maxTableLength (p : UploadParams) : Int :=
  min (p.tables.length : Int) ((2 * remainingSpace p).fdiv 5)

/-- Step 2 candidate: URL rebuilt with the truncated tables. -/
def step2Url (p : UploadParams) : List Char :=
  buildUploadUrl p
    (buildInfoTemplate p p.description p.notes (truncateTables p.tables (maxTableLength p)))

/-- Step 4 candidate: URL with tables and notes removed. -/
def urlNoNotes (p : UploadParams) : List Char :=
  buildUploadUrl p (buildInfoTemplate p p.description [] [])

/-- `minimalLength`: length of the URL whose template has empty
description, notes and tables. -/
def minimalLength (p : UploadParams) : Nat :=
  (buildUploadUrl p (buildInfoTemplate p [] [] [])).length

/-- `maxDescLength = MAX_URL_LENGTH - minimalLength - URL_ENCODING_MARGIN`. -/
def maxDescLength (p : UploadParams) : Int :=
  (MAX_URL_LENGTH : Int) - (minimalLength p : Int) - URL_ENCODING_MARGIN

/-- Step 5 (unconditional) candidate: URL with the truncated description,
no notes, no tables. -/
def finalUrl (p : UploadParams) : List Char :=
  buildUploadUrl p
    (buildInfoTemplate p (truncateDescription p.description (maxDescLength p)) [] [])

/-- `buildConstrainedUploadUrl(params)`: the strict fallback ladder.
Strategy 2 runs only when `tables` is truthy and its allocation exceeds
`MIN_TABLE_LENGTH`, and its candidate is returned only when it fits;
strategy 5 returns unconditionally. -/
def buildConstrainedUploadUrl (p : UploadParams) : BudgetResult :=
  if isUrlTooLong (fullUrl p) = false then
    { url := fullUrl p, wasTruncated := false }
  else if p.tables ≠ [] ∧ MIN_TABLE_LENGTH < maxTableLength p ∧
      isUrlTooLong (step2Url p) = false then
    { url := step2Url p, wasTruncated := true }
  else if isUrlTooLong (urlNoTables p) = false then
    { url := urlNoTables p, wasTruncated := true }
  else if isUrlTooLong (urlNoNotes p) = false then
    { url := urlNoNotes p, wasTruncated := true }
  else
    { url := finalUrl p, wasTruncated := true }

/-! ## HTML → WikiMarkup converter (htmlToWiki.js)

The regexes of `cleanDescription` are embedded as explicit left-to-right
scanners with JS semantics: `/i` compares characters lowercased, `[^>]*` is
the run up to the next `>`, the lazy `(.*?)` stops at the first
case-insensitive occurrence of the closing literal, and without the `/s`
flag the dot cannot cross a line terminator. -/

/-- Case-insensitive prefix test (the `/i` flag on an ASCII literal). -/
def ciPrefix : List Char → List Char → Bool
  | [], _ => true
  | _ :: _, [] => false
  | p :: ps, x :: xs => (p.toLower = x.toLower) && ciPrefix ps xs

/-- Line terminators that JS `.` does not match without the `/s` flag. -/
def jsLineTerm (c : Char) : Bool :=
  c = '\n' || c = '\r' || c = Char.ofNat 8232 || c = Char.ofNat 8233

/-- Lazy scan `(.*?)close`: content up to the first case-insensitive
occurrence of `closePat`, together with the matched closing text and the
rest; fails at a line terminator when `dotAll` is off. -/
def lazyScan (closePat : List Char) (dotAll : Bool) :
    List Char → Option (List Char × List Char × List Char)
  | [] => none
  | x :: xs =>
    if ciPrefix closePat (x :: xs) then
      some ([], (x :: xs).take closePat.length, (x :: xs).drop closePat.length)
    else if !dotAll && jsLineTerm x then none
    else
      match lazyScan closePat dotAll xs with
      | some (c, cl, r) => some (x :: c, cl, r)
      | none => none

/-- Attempt the pattern `open[^>]*>(.*?)close` at the current position;
returns the whole match, the captured group and the rest of the input. -/
def tryPairAt (openPat closePat : List Char) (dotAll : Bool) (l : List Char) :
    Option (List Char × List Char × List Char) :=
  if ciPrefix openPat l then
    let afterOpen := l.drop openPat.length
    let attrs := afterOpen.takeWhile fun c => c ≠ '>'
    match afterOpen.dropWhile (fun c => c ≠ '>') with
    | [] => none
    | _ :: body =>
      match lazyScan closePat dotAll body with
      | some (content, closeText, rest) =>
        some (l.take openPat.length ++ attrs ++ ('>' :: content) ++ closeText, content, rest)
      | none => none
  else none

/-- Global pair-tag replace, `s.replace(/open[^>]*>(.*?)close/gi, pre$1post)`
(`fuel` bounds the scan; it is called with the input length, which suffices
because every step consumes at least one character). -/
def replacePairAux (openPat closePat pre post : List Char) (dotAll : Bool) :
    Nat → List Char → List Char
  | 0, l => l
  | _, [] => []
  | fuel + 1, x :: xs =>
    match tryPairAt openPat closePat dotAll (x :: xs) with
    | some (_, content, rest) =>
      pre ++ content ++ post ++ replacePairAux openPat closePat pre post dotAll fuel rest
    | none => x :: replacePairAux openPat closePat pre post dotAll fuel xs

/-- Entry point of the global pair-tag replace. -/
def jsReplacePair (openPat closePat pre post : List Char) (dotAll : Bool)
    (l : List Char) : List Char :=
  replacePairAux openPat closePat pre post dotAll l.length l

/-- Non-global pair-tag replace by the captured group,
`cell.replace(/open[^>]*>(.*?)close/is, "$1")`. -/
def replaceFirstPairByGroup (openPat closePat : List Char) :
    Nat → List Char → List Char
  | 0, l => l
  | _, [] => []
  | fuel + 1, x :: xs =>
    match tryPairAt openPat closePat true (x :: xs) with
    | some (_, content, rest) => content ++ rest
    | none => x :: replaceFirstPairByGroup openPat closePat fuel xs

/-- All whole matches of `/open[^>]*>(.*?)close/gi[s]` (JS `match` with the
global flag; the empty list models the `null` result). -/
def jsMatchAllPairs (openPat closePat : List Char) (dotAll : Bool) :
    Nat → List Char → List (List Char)
  | 0, _ => []
  | _, [] => []
  | fuel + 1, x :: xs =>
    match tryPairAt openPat closePat dotAll (x :: xs) with
    | some (full, _, rest) => full :: jsMatchAllPairs openPat closePat dotAll fuel rest
    | none => jsMatchAllPairs openPat closePat dotAll fuel xs

/-- First capture group of `/open[^>]*>(.*?)close/i[s]` (non-global
`match`, used for the table content). -/
def firstPairContent (openPat closePat : List Char) (dotAll : Bool) :
    List Char → Option (List Char)
  | [] => none
  | x :: xs =>
    match tryPairAt openPat closePat dotAll (x :: xs) with
    | some (_, content, _) => some content
    | none => firstPairContent openPat closePat dotAll xs

/-- Global case-insensitive literal replace (`/pat/gi` for a literal). -/
def replaceAllCILit (pat repl : List Char) : Nat → List Char → List Char
  | 0, l => l
  | _, [] => []
  | fuel + 1, x :: xs =>
    if pat ≠ [] ∧ ciPrefix pat (x :: xs) then
      repl ++ replaceAllCILit pat repl fuel (List.drop pat.length (x :: xs))
    else x :: replaceAllCILit pat repl fuel xs

/-- Recursion core of `replaceAllLit`. -/
def replaceAllLitAux (pat repl : List Char) : Nat → List Char → List Char
  | _, [] => []
  | 0, l => l
  | fuel + 1, x :: xs =>
    if pat ≠ [] ∧ pat.isPrefixOf (x :: xs) then
      repl ++ replaceAllLitAux pat repl fuel (List.drop (pat.length - 1) xs)
    else x :: replaceAllLitAux pat repl fuel xs

/-- Global case-sensitive literal replace (`/pat/g` for a literal). -/
def replaceAllLit (pat repl : List Char) (l : List Char) : List Char :=
  replaceAllLitAux pat repl l.length l

/-- `text.replace(/<br\s*\/?>/gi, "\n")`. -/
def replaceBrAux : Nat → List Char → List Char
  | 0, l => l
  | _, [] => []
  | fuel + 1, x :: xs =>
    if ciPrefix (str "<br") (x :: xs) then
      match ((x :: xs).drop 3).dropWhile wsChar with
      | '/' :: '>' :: r => '\n' :: replaceBrAux fuel r
      | '>' :: r => '\n' :: replaceBrAux fuel r
      | _ => x :: replaceBrAux fuel xs
    else x :: replaceBrAux fuel xs

/-- Global replace of the open-tag pattern `/open[^>]*>/gi` by `repl`
(used for `<li>`). -/
def replaceOpenTagAux (openPat repl : List Char) : Nat → List Char → List Char
  | 0, l => l
  | _, [] => []
  | fuel + 1, x :: xs =>
    if ciPrefix openPat (x :: xs) then
      let afterOpen := (x :: xs).drop openPat.length
      match afterOpen.dropWhile (fun c => c ≠ '>') with
      | _ :: rest => repl ++ replaceOpenTagAux openPat repl fuel rest
      | [] => x :: replaceOpenTagAux openPat repl fuel xs
    else x :: replaceOpenTagAux openPat repl fuel xs

/-- Recursion core of `stripTags`. -/
def stripTagsAux : Nat → List Char → List Char
  | _, [] => []
  | 0, l => l
  | fuel + 1, x :: xs =>
    if x = '<' then
      let a := xs.takeWhile fun c => c ≠ '>'
      match xs.dropWhile (fun c => c ≠ '>') with
      | [] => x :: stripTagsAux fuel xs
      | _ :: b => if a = [] then x :: stripTagsAux fuel xs else stripTagsAux fuel b
    else x :: stripTagsAux fuel xs

/-- Step 3 of `cleanDescription`: `text.replace(/<[^>]+>/g, "")`. -/
def stripTags (l : List Char) : List Char :=
  stripTagsAux l.length l

/-- Recursion core of `cleanQuoteRuns`. -/
def cleanQuoteRunsAux : Nat → List Char → List Char
  | _, [] => []
  | 0, l => l
  | fuel + 1, x :: xs =>
    if x = Char.ofNat 39 then
      let run := (x :: xs).takeWhile fun c => c = Char.ofNat 39
      let rest := (x :: xs).dropWhile fun c => c = Char.ofNat 39
      (if run.length = 1 ∨ run.length = 2 ∨ run.length = 3 then run else []) ++
        cleanQuoteRunsAux fuel rest
    else x :: cleanQuoteRunsAux fuel xs

/-- Step 4 of `cleanDescription`: delete apostrophe runs that are not exactly
`''` or `'''` (runs of length 1 are not matched by `/'{2,}/g` and stay). -/
def cleanQuoteRuns (l : List Char) : List Char :=
  cleanQuoteRunsAux l.length l

/-- Step 5 of `cleanDescription` (the Node.js fallback branch, the one with
defined, environment-independent behavior): sequential literal entity
replacements. -/
def decodeEntities (l : List Char) : List Char :=
  replaceAllLit (str "&Delta;") [Char.ofNat 916]
    (replaceAllLit (str "&#39;") [Char.ofNat 39]
      (replaceAllLit (str "&quot;") (str "\"")
        (replaceAllLit (str "&gt;") (str ">")
          (replaceAllLit (str "&lt;") (str "<")
            (replaceAllLit (str "&amp;") (str "&") l)))))

/-- `convertInlineFormatting(html)`: bold/italic pair replaces followed by
tag stripping. -/
def convertInlineFormatting (l : List Char) : List Char :=
  stripTags
    (jsReplacePair (str "<i") (str "</i>") (str "\x27\x27") (str "\x27\x27") false
      (jsReplacePair (str "<em") (str "</em>") (str "\x27\x27") (str "\x27\x27") false
        (jsReplacePair (str "<b") (str "</b>") (str "\x27\x27\x27") (str "\x27\x27\x27") false
          (jsReplacePair (str "<strong") (str "</strong>") (str "\x27\x27\x27")
            (str "\x27\x27\x27") false l))))

/-- The per-cell pipeline of `convertTableToWikiMarkup`: replace the cell by
its captured content, trim, convert inline formatting. -/
def cellToWiki (openPat closePat : List Char) (cell : List Char) : List Char :=
  convertInlineFormatting
    (jsTrim (replaceFirstPairByGroup openPat closePat cell.length cell))

/-- One `rows.forEach` iteration: `!`-lines for `<th>` cells, `|`-lines for
`<td>` cells, with a `|-` separator before every row after the first; a row
with no cells contributes nothing (but still advances the row index). -/
def rowToWiki (idxRow : Nat × List Char) : List Char :=
  let thCells := jsMatchAllPairs (str "<th") (str "</th>") true idxRow.2.length idxRow.2
  let tdCells := jsMatchAllPairs (str "<td") (str "</td>") true idxRow.2.length idxRow.2
  if thCells = [] ∧ tdCells = [] then []
  else
    (if 0 < idxRow.1 then str "|-\n" else []) ++
    (thCells.map fun cell => str "! " ++ cellToWiki (str "<th") (str "</th>") cell ++ str "\n").flatten ++
    (tdCells.map fun cell => str "| " ++ cellToWiki (str "<td") (str "</td>") cell ++ str "\n").flatten

/-- `convertTableToWikiMarkup(tableHtml)`. -/
def convertTableToWikiMarkup (tableHtml : List Char) : List Char :=
  match firstPairContent (str "<table") (str "</table>") true tableHtml with
  | none => []
  | some content =>
    match jsMatchAllPairs (str "<tr") (str "</tr>") true content.length content with
    | [] => []
    | rows =>
      wikitableMarker ++ str "\n" ++ (rows.enum.map rowToWiki).flatten ++ str "|\x7d"

/-- Step 1 of `cleanDescription`: remove every
`/<table[^>]*>.*?<\/table>/gis` match from the prose stream, collecting the
matches in document order. -/
def extractTablesAux : Nat → List Char → List Char × List (List Char)
  | 0, l => (l, [])
  | _, [] => ([], [])
  | fuel + 1, x :: xs =>
    match tryPairAt (str "<table") (str "</table>") true (x :: xs) with
    | some (full, _, rest) =>
      let (t, ms) := extractTablesAux fuel rest
      (t, full :: ms)
    | none =>
      let (t, ms) := extractTablesAux fuel xs
      (x :: t, ms)

/-- The `{description, tables}` object returned by `cleanDescription`. -/
structure ConvertedText where
  description : List Char
  tables : List Char
deriving DecidableEq

/-- `cleanDescription(html)` from htmlToWiki.js (the converter). -/
def cleanDescription (html : List Char) : ConvertedText :=
  if html = [] then ⟨[], []⟩
  else
    let extracted := extractTablesAux html.length html
    let text := jsReplacePair (str "<strong") (str "</strong>") (str "\x27\x27\x27")
      (str "\x27\x27\x27") false extracted.1
    let text := jsReplacePair (str "<b") (str "</b>") (str "\x27\x27\x27")
      (str "\x27\x27\x27") false text
    let text := jsReplacePair (str "<em") (str "</em>") (str "\x27\x27") (str "\x27\x27")
      false text
    let text := jsReplacePair (str "<i") (str "</i>") (str "\x27\x27") (str "\x27\x27")
      false text
    let text := replaceAllCILit (str "</p>") (str "\n\n") text.length text
    let text := replaceBrAux text.length text
    let text := replaceOpenTagAux (str "<li") (str "\n* ") text.length text
    let text := stripTags text
    let text := cleanQuoteRuns text
    let text := decodeEntities text
    let description :=
      jsJoin (str "\n")
        (((splitSeq (str "\n") text).map jsTrim).filter fun ln => 0 < ln.length)
    let tables := jsJoin (str "\n\n") (extracted.2.map convertTableToWikiMarkup)
    ⟨description, tables⟩

/-! ## Derived definitions used by the theorems -/

/-- The tail of the fallback ladder (strategies 3–5), the behavior of
`buildConstrainedUploadUrl` once strategy 2 has not returned. -/
def ladderTail (p : UploadParams) : BudgetResult :=
  if isUrlTooLong (urlNoTables p) = false then { url := urlNoTables p, wasTruncated := true }
  else if isUrlTooLong (urlNoNotes p) = false then { url := urlNoNotes p, wasTruncated := true }
  else { url := finalUrl p, wasTruncated := true }

/-- Short fixed fields shared by the concrete evaluation inputs. -/
def baseParams : UploadParams where
  title := str "T"
  description := []
  notes := []
  tables := []
  date := str "2020-01-01"
  source := str "https://zenodo.org/records/17"
  authors := str "Doe, J."
  recordId := str "17"
  commonsLicense := str "cc-by-4.0"
  destFile := str "F.png"
  fileUrl := str "https://zenodo.org/api/files/f/F.png"

/-- Input with an oversized fixed field (the title): every template, even the
minimal one, then overflows the budget. -/
def oversizedTitleParams : UploadParams :=
  { baseParams with title := List.replicate 4200 'a' }

/-- Input with a 4000-character single-paragraph description and no
tables/notes: the ladder reaches strategy 5. -/
def longDescParams : UploadParams :=
  { baseParams with description := List.replicate 4000 'a' }

/-- Input with a long description and a tiny non-empty tables string:
strategy 2 computes an allocation below `MIN_TABLE_LENGTH`. -/
def longDescTinyTablesParams : UploadParams :=
  { baseParams with description := List.replicate 4000 'a', tables := str "x" }

/-- The encoded chunk of the URL between the Information header and the
record-id reference (description section and fixed template fields). -/
def urlChunkDesc (p : UploadParams) (d nts : List Char) : List Char :=
  urlencode (str "\n|description=" ++
    (p.title ++ str ":\n" ++ d ++ (if nts = [] then [] else str "\n\n" ++ nts)) ++
    str "\n|date=" ++ p.date ++ str "\n|source=" ++ p.source ++
    str "\n|author=" ++ p.authors ++
    str "\n|permission=\n|other versions=\n\x7d\x7d\n")

/-- The encoded chunk of the URL after the record-id reference (category
lines and optional tables). -/
def urlChunkCats (tbl : List Char) : List Char :=
  urlencode
    (str "\n[[Category:Media from Zenodo]]\n[[Category:Uploaded with zenodo2commons]]" ++
      (if tbl = [] then [] else str "\n\n" ++ tbl))

/-- The fixed tail of the query string after the destination-file value. -/
def urlChunkTail (p : UploadParams) : List Char :=
  str "&wpSourceType=url&wpUploadFileURL=" ++ urlencode p.fileUrl

/-- A one-row wikitable block with the given header, as produced by the
converter. -/
def wikiBlock (name : String) : List Char :=
  wikitableMarker ++ str "\n! " ++ str name ++ str "\n|-\n| v\n|\x7d"

/-- Three independent table blocks (`Study`, `Biosample`, `Analysis`). -/
def threeBlockTables : List Char :=
  wikiBlock "Study" ++ str "\n\n" ++ wikiBlock "Biosample" ++ str "\n\n" ++
    wikiBlock "Analysis"

/-- A single wikitable block with twenty data rows. -/
def manyRowTable : List Char :=
  wikitableMarker ++ str "\n! Col\n" ++
    (List.replicate 20 (str "|-\n| Row data\n")).flatten ++ str "|\x7d"

/-- The description used by the C9 counterexample: a one-character first
paragraph followed by a long second paragraph. -/
def shortParaDesc : List Char := str "a\n\n" ++ List.replicate 100 'x'

/-- Whether a string still contains an HTML tag in the sense of the
stripping regex `<[^>]+>`: a `<` followed by at least one non-`>` character
and then a `>`. -/
def containsHtmlTag : List Char → Bool
  | [] => false
  | x :: xs =>
    (x = '<' && !(xs.takeWhile (fun c => c ≠ '>')).isEmpty &&
      !(xs.dropWhile (fun c => c ≠ '>')).isEmpty) || containsHtmlTag xs

/-- Converter input with one table between a leading and a trailing
paragraph. -/
def tableScenarioHtml : List Char :=
  str "<p>Intro paragraph.</p><table><tr><th>Study</th></tr><tr><td>Ultrastructure of the immune synapse</td></tr></table><p>Trailing paragraph.</p>"

/-! ## Length decomposition of the produced URLs -/

/-- `urlencode` distributes over concatenation. -/
theorem urlencode_append (a b : List Char) :
    urlencode (a ++ b) = urlencode a ++ urlencode b := by
  simp [urlencode]

/-- Encoding a replicate of a one-output character has the same length. -/
theorem urlencode_replicate_length (n : Nat) (c : Char)
    (h : (urlencodeChar c).length = 1) :
    (urlencode (List.replicate n c)).length = n := by
  induction n with
  | zero => rfl
  | succ k ih =>
    simp only [List.replicate_succ, urlencode, List.flatMap_cons, List.length_append]
    simp only [urlencode] at ih
    omega

/-- Encoding a string of one-output characters preserves its length. -/
theorem urlencode_length_of_safe (l : List Char)
    (h : ∀ c ∈ l, (urlencodeChar c).length = 1) :
    (urlencode l).length = l.length := by
  induction l with
  | nil => rfl
  | cons x xs ih =>
    simp only [urlencode, List.flatMap_cons, List.length_append, List.length_cons]
    have hx := h x (by simp)
    have := ih fun c hc => h c (by simp [hc])
    simp only [urlencode] at this
    omega

/-- Length of every produced upload URL, decomposed into a fixed part and
the encoded lengths of the variable fields (the conditional summands model
the JS truthiness branches for the optional notes and tables). -/
theorem uploadUrl_length (p : UploadParams) (d nts tbl : List Char) :
    (buildUploadUrl p (buildInfoTemplate p d nts tbl)).length =
      385 + (urlencode p.title).length + (urlencode d).length
        + (if nts = [] then 0 else 6 + (urlencode nts).length)
        + (urlencode p.date).length + (urlencode p.source).length
        + (urlencode p.authors).length + (urlencode p.recordId).length
        + (if tbl = [] then 0 else 6 + (urlencode tbl).length)
        + (urlencode p.commonsLicense).length + (urlencode p.destFile).length
        + (urlencode p.fileUrl).length := by
  have hA : (urlencode (str "\x7b\x7bInformation\n|description=")).length = 37 := by decide
  have hB : (urlencode (str ":\n")).length = 6 := by decide
  have hN : (urlencode (str "\n\n")).length = 6 := by decide
  have hC : (urlencode (str "\n|date=")).length = 13 := by decide
  have hD : (urlencode (str "\n|source=")).length = 15 := by decide
  have hE : (urlencode (str "\n|author=")).length = 15 := by decide
  have hF : (urlencode (str "\n|permission=\n|other versions=\n\x7d\x7d\n\x7b\x7bZenodo|")).length
      = 69 := by decide
  have hG : (urlencode
      (str "\x7d\x7d\n[[Category:Media from Zenodo]]\n[[Category:Uploaded with zenodo2commons]]")).length
      = 103 := by decide
  have hBase : uploadBase.length = 50 := by decide
  have hW1 : (str "wpUploadDescription=").length = 20 := by decide
  have hW2 : (str "&wpLicense=").length = 11 := by decide
  have hW3 : (str "&wpDestFile=").length = 12 := by decide
  have hW4 : (str "&wpSourceType=url&wpUploadFileURL=").length = 34 := by decide
  by_cases h1 : nts = [] <;> by_cases h2 : tbl = [] <;>
    simp only [buildUploadUrl, serializeQuery, buildInfoTemplate, h1, h2, if_true, if_false,
      List.append_nil, urlencode_append, List.length_append, hA, hB, hN, hC, hD, hE, hF, hG,
      hBase, hW1, hW2, hW3, hW4, if_pos, if_neg, not_false_iff] <;>
    omega

/-- `fullUrl` length. -/
theorem fullUrl_length (p : UploadParams) :
    (fullUrl p).length =
      385 + (urlencode p.title).length + (urlencode p.description).length
        + (if p.notes = [] then 0 else 6 + (urlencode p.notes).length)
        + (urlencode p.date).length + (urlencode p.source).length
        + (urlencode p.authors).length + (urlencode p.recordId).length
        + (if p.tables = [] then 0 else 6 + (urlencode p.tables).length)
        + (urlencode p.commonsLicense).length + (urlencode p.destFile).length
        + (urlencode p.fileUrl).length :=
  uploadUrl_length p p.description p.notes p.tables

/-- `urlNoNotes` length. -/
theorem urlNoNotes_length (p : UploadParams) :
    (urlNoNotes p).length =
      385 + (urlencode p.title).length + (urlencode p.description).length
        + (urlencode p.date).length + (urlencode p.source).length
        + (urlencode p.authors).length + (urlencode p.recordId).length
        + (urlencode p.commonsLicense).length + (urlencode p.destFile).length
        + (urlencode p.fileUrl).length := by
  have h := uploadUrl_length p p.description [] []
  simpa using h

/-- `minimalLength` value. -/
theorem minimalLength_eq (p : UploadParams) :
    minimalLength p =
      385 + (urlencode p.title).length
        + (urlencode p.date).length + (urlencode p.source).length
        + (urlencode p.authors).length + (urlencode p.recordId).length
        + (urlencode p.commonsLicense).length + (urlencode p.destFile).length
        + (urlencode p.fileUrl).length := by
  have h := uploadUrl_length p [] [] []
  simpa [minimalLength] using h

/-! ## Facts about the concrete evaluation inputs -/

/-- Encoded length of a 4000-character run of `a`. -/
theorem encode_longDesc_length : (urlencode (List.replicate 4000 'a')).length = 4000 :=
  urlencode_replicate_length 4000 'a' (by decide)

set_option maxRecDepth 2000 in
/-- The no-notes URL of `longDescParams` overflows the budget. -/
theorem longDesc_urlNoNotes_too_long : isUrlTooLong (urlNoNotes longDescParams) = true := by
  have h := urlNoNotes_length longDescParams
  have hd : (urlencode longDescParams.description).length = 4000 := encode_longDesc_length
  have h1 : (urlencode longDescParams.title).length = 1 := by decide
  have h2 : (urlencode longDescParams.date).length = 10 := by decide
  have h3 : (urlencode longDescParams.source).length = 39 := by decide
  have h4 : (urlencode longDescParams.authors).length = 9 := by decide
  have h5 : (urlencode longDescParams.recordId).length = 2 := by decide
  have h6 : (urlencode longDescParams.commonsLicense).length = 9 := by decide
  have h7 : (urlencode longDescParams.destFile).length = 5 := by decide
  have h8 : (urlencode longDescParams.fileUrl).length = 50 := by decide
  simp only [isUrlTooLong, MAX_URL_LENGTH]
  rw [h, hd, h1, h2, h3, h4, h5, h6, h7, h8]
  decide

/-- The full-template URL of `longDescParams` overflows the budget
(its notes and tables are empty, so the full template coincides with the
no-notes one). -/
theorem longDesc_fullUrl_too_long : isUrlTooLong (fullUrl longDescParams) = true :=
  longDesc_urlNoNotes_too_long

/-- The no-tables URL of `longDescParams` also coincides with the no-notes
one and overflows the budget. -/
theorem longDesc_urlNoTables_too_long : isUrlTooLong (urlNoTables longDescParams) = true :=
  longDesc_urlNoNotes_too_long

set_option maxRecDepth 2000 in
/-- The full-template URL of `longDescTinyTablesParams` overflows the budget. -/
theorem longDescTinyTables_fullUrl_too_long :
    isUrlTooLong (fullUrl longDescTinyTablesParams) = true := by
  have h := fullUrl_length longDescTinyTablesParams
  have hd : (urlencode longDescTinyTablesParams.description).length = 4000 :=
    encode_longDesc_length
  have h1 : (urlencode longDescTinyTablesParams.title).length = 1 := by decide
  have h2 : (urlencode longDescTinyTablesParams.date).length = 10 := by decide
  have h3 : (urlencode longDescTinyTablesParams.source).length = 39 := by decide
  have h4 : (urlencode longDescTinyTablesParams.authors).length = 9 := by decide
  have h5 : (urlencode longDescTinyTablesParams.recordId).length = 2 := by decide
  have h6 : (urlencode longDescTinyTablesParams.commonsLicense).length = 9 := by decide
  have h7 : (urlencode longDescTinyTablesParams.destFile).length = 5 := by decide
  have h8 : (urlencode longDescTinyTablesParams.fileUrl).length = 50 := by decide
  have h9 : (urlencode longDescTinyTablesParams.tables).length = 1 := by decide
  rw [if_pos (show longDescTinyTablesParams.notes = [] from rfl),
    if_neg (show ¬longDescTinyTablesParams.tables = [] by decide)] at h
  simp only [isUrlTooLong, MAX_URL_LENGTH]
  rw [h, hd, h1, h2, h3, h4, h5, h6, h7, h8, h9]
  decide

/-! ## C2 -/

/-- C2: `buildConstrainedUploadUrl` always returns a `BudgetResult` (its
return type), and `wasTruncated` is `false` exactly when the URL built from
the full untruncated template fits within `MAX_URL_LENGTH`; every ladder
step after the first sets it to `true`. -/
theorem c2_truncation_flag (p : UploadParams) :
    (buildConstrainedUploadUrl p).wasTruncated = false ↔
      (fullUrl p).length ≤ MAX_URL_LENGTH := by
  have hflag : (buildConstrainedUploadUrl p).wasTruncated = isUrlTooLong (fullUrl p) := by
    unfold buildConstrainedUploadUrl
    split_ifs with h1 h2 h3 h4 <;> simp_all
  rw [hflag]
  simp [isUrlTooLong]

/-! ## C3 -/

/-- C3: when the full URL overflows and `tables` is non-empty, strategy 2
behaves as specified: `remainingSpace` is the budget minus the length of the
URL built with empty tables minus `URL_ENCODING_MARGIN`; the allocation is
`min(tables.length, ⌊remainingSpace · 0.4⌋)`; the truncate-and-rebuild
candidate `step2Url` (built from `truncateTables tables (maxTableLength p)`)
is returned exactly when the allocation strictly exceeds `MIN_TABLE_LENGTH`
and the rebuilt URL fits; otherwise the ladder continues with strategies
3–5 (`ladderTail`). -/
theorem c3_table_step (p : UploadParams)
    (hfull : isUrlTooLong (fullUrl p) = true) (htab : p.tables ≠ []) :
    remainingSpace p =
        (MAX_URL_LENGTH : Int) - ((urlNoTables p).length : Int) - URL_ENCODING_MARGIN ∧
    maxTableLength p = min ((p.tables.length : Int)) ((2 * remainingSpace p).fdiv 5) ∧
    (MIN_TABLE_LENGTH < maxTableLength p → isUrlTooLong (step2Url p) = false →
      buildConstrainedUploadUrl p = { url := step2Url p, wasTruncated := true }) ∧
    ((maxTableLength p ≤ MIN_TABLE_LENGTH ∨ isUrlTooLong (step2Url p) = true) →
      buildConstrainedUploadUrl p = ladderTail p) := by
  refine ⟨rfl, rfl, ?_, ?_⟩
  · intro hmin hfit
    unfold buildConstrainedUploadUrl
    rw [hfull]
    simp [htab, hmin, hfit]
  · intro hor
    unfold buildConstrainedUploadUrl ladderTail
    rw [hfull]
    have hnot : ¬(p.tables ≠ [] ∧ MIN_TABLE_LENGTH < maxTableLength p ∧
        isUrlTooLong (step2Url p) = false) := by
      rcases hor with h | h
      · rintro ⟨-, hlt, -⟩
        omega
      · rintro ⟨-, -, hfit⟩
        rw [h] at hfit
        exact absurd hfit (by decide)
    simp [hnot]

/-- Witness for C3 at `longDescTinyTablesParams` (whose one-character tables
string gives an allocation of at most 1, far below `MIN_TABLE_LENGTH`). -/
theorem c3_table_step_witness :
    isUrlTooLong (fullUrl longDescTinyTablesParams) = true ∧
    longDescTinyTablesParams.tables ≠ [] ∧
    (remainingSpace longDescTinyTablesParams =
        (MAX_URL_LENGTH : Int) - ((urlNoTables longDescTinyTablesParams).length : Int) -
          URL_ENCODING_MARGIN ∧
    maxTableLength longDescTinyTablesParams =
        min ((longDescTinyTablesParams.tables.length : Int))
          ((2 * remainingSpace longDescTinyTablesParams).fdiv 5) ∧
    (MIN_TABLE_LENGTH < maxTableLength longDescTinyTablesParams →
      isUrlTooLong (step2Url longDescTinyTablesParams) = false →
      buildConstrainedUploadUrl longDescTinyTablesParams =
        { url := step2Url longDescTinyTablesParams, wasTruncated := true }) ∧
    ((maxTableLength longDescTinyTablesParams ≤ MIN_TABLE_LENGTH ∨
        isUrlTooLong (step2Url longDescTinyTablesParams) = true) →
      buildConstrainedUploadUrl longDescTinyTablesParams =
        ladderTail longDescTinyTablesParams)) :=
  ⟨longDescTinyTables_fullUrl_too_long, by decide,
    c3_table_step longDescTinyTablesParams longDescTinyTables_fullUrl_too_long (by decide)⟩

/-! ## C4 -/

/-- Structured decomposition of every produced upload URL into the chunks
surrounding the skeleton markers. -/
theorem uploadUrl_decomp (p : UploadParams) (d nts tbl : List Char) :
    buildUploadUrl p (buildInfoTemplate p d nts tbl) =
      uploadBase ++ str "wpUploadDescription=" ++
      urlencode (str "\x7b\x7b") ++ str "Information" ++
      urlChunkDesc p d nts ++
      urlencode (str "\x7b\x7bZenodo|" ++ p.recordId ++ str "\x7d\x7d") ++
      urlChunkCats tbl ++
      str "&" ++ str "wpLicense" ++ str "=" ++ urlencode p.commonsLicense ++
      str "&" ++ str "wpDestFile" ++ str "=" ++ urlencode p.destFile ++
      urlChunkTail p := by
  have e1 : str "\x7b\x7bInformation\n|description=" =
      str "\x7b\x7b" ++ str "Information" ++ str "\n|description=" := rfl
  have e2 : str "\n|permission=\n|other versions=\n\x7d\x7d\n\x7b\x7bZenodo|" =
      str "\n|permission=\n|other versions=\n\x7d\x7d\n" ++ str "\x7b\x7bZenodo|" := rfl
  have e3 : (str "\x7d\x7d\n[[Category:Media from Zenodo]]\n[[Category:Uploaded with zenodo2commons]]" : List Char) =
      str "\x7d\x7d" ++
        str "\n[[Category:Media from Zenodo]]\n[[Category:Uploaded with zenodo2commons]]" := rfl
  have e4 : urlencode (str "Information") = str "Information" := rfl
  have e5 : (str "&wpLicense=" : List Char) = str "&" ++ str "wpLicense" ++ str "=" := rfl
  have e6 : (str "&wpDestFile=" : List Char) = str "&" ++ str "wpDestFile" ++ str "=" := rfl
  simp only [buildUploadUrl, serializeQuery, buildInfoTemplate, urlChunkDesc, urlChunkCats,
    urlChunkTail, e1, e2, e3, e5, e6, urlencode_append, e4, List.append_assoc]

/-- Any value of the shape `buildUploadUrl p (buildInfoTemplate p d nts tbl)`
contains the query-parameter names and template skeleton markers. -/
theorem uploadUrl_markers (p : UploadParams) (d nts tbl : List Char) :
    str "wpLicense" <:+: buildUploadUrl p (buildInfoTemplate p d nts tbl) ∧
    str "wpDestFile" <:+: buildUploadUrl p (buildInfoTemplate p d nts tbl) ∧
    str "Information" <:+: buildUploadUrl p (buildInfoTemplate p d nts tbl) ∧
    urlencode (str "\x7b\x7bZenodo|" ++ p.recordId ++ str "\x7d\x7d") <:+:
      buildUploadUrl p (buildInfoTemplate p d nts tbl) := by
  rw [uploadUrl_decomp p d nts tbl]
  refine ⟨⟨uploadBase ++ str "wpUploadDescription=" ++ urlencode (str "\x7b\x7b") ++
      str "Information" ++ urlChunkDesc p d nts ++
      urlencode (str "\x7b\x7bZenodo|" ++ p.recordId ++ str "\x7d\x7d") ++
      urlChunkCats tbl ++ str "&",
    str "=" ++ urlencode p.commonsLicense ++ str "&" ++ str "wpDestFile" ++ str "=" ++
      urlencode p.destFile ++ urlChunkTail p, by simp [List.append_assoc]⟩,
    ⟨uploadBase ++ str "wpUploadDescription=" ++ urlencode (str "\x7b\x7b") ++
      str "Information" ++ urlChunkDesc p d nts ++
      urlencode (str "\x7b\x7bZenodo|" ++ p.recordId ++ str "\x7d\x7d") ++
      urlChunkCats tbl ++ str "&" ++ str "wpLicense" ++ str "=" ++
      urlencode p.commonsLicense ++ str "&",
    str "=" ++ urlencode p.destFile ++ urlChunkTail p, by simp [List.append_assoc]⟩,
    ⟨uploadBase ++ str "wpUploadDescription=" ++ urlencode (str "\x7b\x7b"),
    urlChunkDesc p d nts ++
      urlencode (str "\x7b\x7bZenodo|" ++ p.recordId ++ str "\x7d\x7d") ++
      urlChunkCats tbl ++ str "&" ++ str "wpLicense" ++ str "=" ++
      urlencode p.commonsLicense ++ str "&" ++ str "wpDestFile" ++ str "=" ++
      urlencode p.destFile ++ urlChunkTail p, by simp [List.append_assoc]⟩,
    ⟨uploadBase ++ str "wpUploadDescription=" ++ urlencode (str "\x7b\x7b") ++
      str "Information" ++ urlChunkDesc p d nts,
    urlChunkCats tbl ++ str "&" ++ str "wpLicense" ++ str "=" ++
      urlencode p.commonsLicense ++ str "&" ++ str "wpDestFile" ++ str "=" ++
      urlencode p.destFile ++ urlChunkTail p, by simp [List.append_assoc]⟩⟩

/-- The outcome of `buildConstrainedUploadUrl` is always a URL built from
some arguments to the template builder. -/
theorem buildConstrained_url_shape (p : UploadParams) :
    ∃ d nts tbl, (buildConstrainedUploadUrl p).url =
      buildUploadUrl p (buildInfoTemplate p d nts tbl) := by
  unfold buildConstrainedUploadUrl
  split_ifs <;> exact ⟨_, _, _, rfl⟩

/-- C4: when the ladder is driven to its last step (the step-4 URL, full
description without notes or tables, still overflows), the returned URL
still contains the `wpLicense` and `wpDestFile` query parameters, the
`Information` template header, and the percent-encoded record-id reference
line `\x7b\x7bZenodo|recordId\x7d\x7d` — the skeleton survives every
truncation step. -/
theorem c4_skeleton_survives (p : UploadParams)
    (hlast : isUrlTooLong (urlNoNotes p) = true) :
    str "wpLicense" <:+: (buildConstrainedUploadUrl p).url ∧
    str "wpDestFile" <:+: (buildConstrainedUploadUrl p).url ∧
    str "Information" <:+: (buildConstrainedUploadUrl p).url ∧
    urlencode (str "\x7b\x7bZenodo|" ++ p.recordId ++ str "\x7d\x7d") <:+:
      (buildConstrainedUploadUrl p).url := by
  obtain ⟨d, nts, tbl, hshape⟩ := buildConstrained_url_shape p
  rw [hshape]
  exact uploadUrl_markers p d nts tbl

/-- Witness for C4 at `longDescParams` (4000-character description, no
notes/tables: strategies 1–4 all overflow, so strategy 5 runs). -/
theorem c4_skeleton_survives_witness :
    isUrlTooLong (urlNoNotes longDescParams) = true ∧
    (str "wpLicense" <:+: (buildConstrainedUploadUrl longDescParams).url ∧
     str "wpDestFile" <:+: (buildConstrainedUploadUrl longDescParams).url ∧
     str "Information" <:+: (buildConstrainedUploadUrl longDescParams).url ∧
     urlencode (str "\x7b\x7bZenodo|" ++ longDescParams.recordId ++ str "\x7d\x7d") <:+:
       (buildConstrainedUploadUrl longDescParams).url) :=
  ⟨longDesc_urlNoNotes_too_long,
    c4_skeleton_survives longDescParams longDesc_urlNoNotes_too_long⟩

/-! ## C1: supporting lemmas for the last ladder step -/

/-- Splitting on a paragraph break is the identity on newline-free text. -/
theorem splitSeqAux_no_newline (fuel : Nat) (l : List Char)
    (h : ∀ c ∈ l, c ≠ '\n') : splitSeqAux (str "\n\n") fuel l = [l] := by
  induction fuel generalizing l with
  | zero => cases l <;> simp [splitSeqAux]
  | succ k ih =>
    cases l with
    | nil => simp [splitSeqAux]
    | cons x xs =>
      have hx : x ≠ '\n' := h x (by simp)
      have hpre : (str "\n\n").isPrefixOf (x :: xs) = false := by
        simp [str, List.isPrefixOf]
        intro heq
        exact absurd heq.symm hx
      rw [splitSeqAux, if_neg (by simp [hpre]), ih xs fun c hc => h c (by simp [hc])]

/-- The sentence regex finds no match in terminator-free text. -/
theorem matchSentencesAux_no_term (fuel : Nat) (l : List Char)
    (h : ∀ c ∈ l, isSentTerm c = false) : matchSentencesAux fuel l = [] := by
  induction fuel generalizing l with
  | zero => cases l <;> simp [matchSentencesAux]
  | succ k ih =>
    cases l with
    | nil => simp [matchSentencesAux]
    | cons x xs =>
      have hx : isSentTerm x = false := h x (by simp)
      have hdrop : List.dropWhile (fun c => !isSentTerm c) (x :: xs) = [] := by
        rw [List.dropWhile_eq_nil_iff]
        intro c hc
        simp [h c hc]
      rw [matchSentencesAux, if_neg (by simp [hx])]
      simp only [hdrop]

/-- On a non-empty description with no paragraph break and no sentence
terminator that exceeds the budget, `truncateDescription` reaches the
hard-truncation fallback. -/
theorem truncateDescription_no_boundaries (desc : List Char) (m : Int)
    (hnl : ∀ c ∈ desc, c ≠ '\n') (hterm : ∀ c ∈ desc, isSentTerm c = false)
    (hlong : m < (desc.length : Int)) (hne : desc ≠ []) :
    truncateDescription desc m =
      if 0 < m - (ellipsisNote.length : Int) then
        desc.take (m - (ellipsisNote.length : Int)).toNat ++ ellipsisNote
      else ellipsisNote := by
  have hsplit : splitSeq (str "\n\n") desc = [desc] :=
    splitSeqAux_no_newline desc.length desc hnl
  have hms : matchSentences desc = [] := matchSentencesAux_no_term desc.length desc hterm
  have hpara : paraLoop m [desc] [] = [] := by
    have hc : m < (desc.length : Int) + (descTruncationNote.length : Int) := by omega
    simp only [paraLoop, reduceIte]
    rw [if_pos hc]
  have hsent : sentLoop m [desc] [] = [] := by
    have hc : m < (desc.length : Int) + (ellipsisNote.length : Int) := by omega
    simp only [sentLoop, List.nil_append]
    rw [if_pos hc]
  rw [truncateDescription, if_neg (by push_neg; exact ⟨hne, by omega⟩)]
  simp only [hsplit, hpara, hms, hsent, reduceIte, ne_eq, not_true_eq_false, if_false]

/-- Characters kept verbatim by the serializer encode to one character. -/
theorem urlencodeChar_length_of_safe (c : Char) (h : urlSafeChar c = true) :
    (urlencodeChar c).length = 1 := by
  by_cases hsp : c = ' ' <;> simp [urlencodeChar, hsp, h]

/-- The step-4 URL is the minimal skeleton plus the encoded description. -/
theorem urlNoNotes_split (p : UploadParams) :
    (urlNoNotes p).length = minimalLength p + (urlencode p.description).length := by
  rw [urlNoNotes_length, minimalLength_eq]
  omega

/-- The step-5 URL is the minimal skeleton plus the encoded truncated
description. -/
theorem finalUrl_split (p : UploadParams) :
    (finalUrl p).length =
      minimalLength p +
        (urlencode (truncateDescription p.description (maxDescLength p))).length := by
  have h : (finalUrl p).length =
      385 + (urlencode p.title).length +
        (urlencode (truncateDescription p.description (maxDescLength p))).length
        + (if ([] : List Char) = [] then 0 else 6 + (urlencode ([] : List Char)).length)
        + (urlencode p.date).length + (urlencode p.source).length
        + (urlencode p.authors).length + (urlencode p.recordId).length
        + (if ([] : List Char) = [] then 0 else 6 + (urlencode ([] : List Char)).length)
        + (urlencode p.commonsLicense).length + (urlencode p.destFile).length
        + (urlencode p.fileUrl).length :=
    uploadUrl_length p (truncateDescription p.description (maxDescLength p)) [] []
  simp only [reduceIte] at h
  rw [minimalLength_eq]
  omega

/-- C1 (amended): the budget invariant
`(buildConstrainedUploadUrl p).url.length ≤ MAX_URL_LENGTH` holds whenever
the fixed fields leave the minimal skeleton at least
`URL_ENCODING_MARGIN + 64` characters under the budget and the description
consists of URL-safe characters with no sentence terminator (in particular
the spec's stress inputs: long runs of a repeated letter).  Without such a
restriction the final unconditional ladder step can exceed the budget (see
the counterexample). -/
theorem c1_budget_invariant (p : UploadParams)
    (hskel : minimalLength p + 164 ≤ MAX_URL_LENGTH)
    (hdesc : ∀ c ∈ p.description, urlSafeChar c = true ∧ isSentTerm c = false) :
    (buildConstrainedUploadUrl p).url.length ≤ MAX_URL_LENGTH := by
  have hM : MAX_URL_LENGTH = 4000 := rfl
  unfold buildConstrainedUploadUrl
  split_ifs with h1 h2 h3 h4
  · simp only [isUrlTooLong, decide_eq_false_iff_not, not_lt] at h1
    exact h1
  · have h := h2.2.2
    simp only [isUrlTooLong, decide_eq_false_iff_not, not_lt] at h
    exact h
  · simp only [isUrlTooLong, decide_eq_false_iff_not, not_lt] at h3
    exact h3
  · simp only [isUrlTooLong, decide_eq_false_iff_not, not_lt] at h4
    exact h4
  · have h4' : MAX_URL_LENGTH < (urlNoNotes p).length := by
      simp only [isUrlTooLong, decide_eq_false_iff_not, not_not] at h4
      exact h4
    have hsafe1 : ∀ c ∈ p.description, (urlencodeChar c).length = 1 := fun c hc =>
      urlencodeChar_length_of_safe c (hdesc c hc).1
    have hEnc : (urlencode p.description).length = p.description.length :=
      urlencode_length_of_safe _ hsafe1
    have hsplit := urlNoNotes_split p
    have hlen : MAX_URL_LENGTH < minimalLength p + p.description.length := by
      rw [hsplit, hEnc] at h4'
      exact h4'
    have hne : p.description ≠ [] := by
      intro h
      rw [h] at hlen
      simp only [List.length_nil, Nat.add_zero] at hlen
      omega
    have hnl : ∀ c ∈ p.description, c ≠ '\n' := by
      intro c hc heq
      have := (hdesc c hc).1
      rw [heq] at this
      exact absurd this (by decide)
    have hMd : maxDescLength p =
        (MAX_URL_LENGTH : Int) - (minimalLength p : Int) - URL_ENCODING_MARGIN := rfl
    have hMargin : URL_ENCODING_MARGIN = (100 : Int) := rfl
    have hlong : maxDescLength p < (p.description.length : Int) := by
      rw [hMd, hMargin, hM]
      rw [hM] at hlen
      omega
    have htr := truncateDescription_no_boundaries p.description (maxDescLength p) hnl
      (fun c hc => (hdesc c hc).2) hlong hne
    have hfin := finalUrl_split p
    rw [htr] at hfin
    have hEl : (urlencode ellipsisNote).length = 64 := by decide
    have hElL : (ellipsisNote.length : Int) = 60 := by decide
    show (finalUrl p).length ≤ MAX_URL_LENGTH
    by_cases hpos : 0 < maxDescLength p - (ellipsisNote.length : Int)
    · rw [if_pos hpos] at hfin
      rw [urlencode_append, List.length_append, hEl] at hfin
      have htk : (urlencode (p.description.take
          (maxDescLength p - (ellipsisNote.length : Int)).toNat)).length =
          (p.description.take (maxDescLength p - (ellipsisNote.length : Int)).toNat).length :=
        urlencode_length_of_safe _ fun c hc => hsafe1 c (List.take_subset _ _ hc)
      rw [htk, List.length_take] at hfin
      rw [hfin, hM]
      rw [hM] at hskel
      omega
    · rw [if_neg hpos] at hfin
      rw [hfin, hEl, hM]
      rw [hMd, hMargin, hM, hElL] at hpos
      rw [hM] at hskel
      omega

/-- Encoded length of the 4200-character title. -/
theorem encode_bigTitle_length :
    (urlencode oversizedTitleParams.title).length = 4200 :=
  urlencode_replicate_length 4200 'a' (by decide)

set_option maxRecDepth 2000 in
/-- The minimal-skeleton URL of `oversizedTitleParams` overflows on its own. -/
theorem oversized_urlNoNotes_too_long :
    isUrlTooLong (urlNoNotes oversizedTitleParams) = true := by
  have h := urlNoNotes_length oversizedTitleParams
  have hd : (urlencode oversizedTitleParams.description).length = 0 := by decide
  have h2 : (urlencode oversizedTitleParams.date).length = 10 := by decide
  have h3 : (urlencode oversizedTitleParams.source).length = 39 := by decide
  have h4 : (urlencode oversizedTitleParams.authors).length = 9 := by decide
  have h5 : (urlencode oversizedTitleParams.recordId).length = 2 := by decide
  have h6 : (urlencode oversizedTitleParams.commonsLicense).length = 9 := by decide
  have h7 : (urlencode oversizedTitleParams.destFile).length = 5 := by decide
  have h8 : (urlencode oversizedTitleParams.fileUrl).length = 50 := by decide
  simp only [isUrlTooLong, MAX_URL_LENGTH]
  rw [h, encode_bigTitle_length, hd, h2, h3, h4, h5, h6, h7, h8]
  decide

set_option maxRecDepth 2000 in
/-- C1 counterexample: with a 4200-character title (and otherwise short
fields), `buildConstrainedUploadUrl` still returns — via the unconditional
last ladder step — a URL strictly longer than `MAX_URL_LENGTH`, refuting
the unrestricted budget invariant. -/
theorem c1_counterexample :
    MAX_URL_LENGTH < (buildConstrainedUploadUrl oversizedTitleParams).url.length := by
  have h1 : isUrlTooLong (fullUrl oversizedTitleParams) = true :=
    oversized_urlNoNotes_too_long
  have h3 : isUrlTooLong (urlNoTables oversizedTitleParams) = true :=
    oversized_urlNoNotes_too_long
  have hres : buildConstrainedUploadUrl oversizedTitleParams =
      { url := finalUrl oversizedTitleParams, wasTruncated := true } := by
    unfold buildConstrainedUploadUrl
    rw [if_neg (by simp [h1]), if_neg ?htab, if_neg (by simp [h3]),
      if_neg (by simp [oversized_urlNoNotes_too_long])]
    case htab =>
      rintro ⟨ht, -, -⟩
      exact ht rfl
  have htrunc : truncateDescription oversizedTitleParams.description
      (maxDescLength oversizedTitleParams) = [] := by
    have hd : oversizedTitleParams.description = [] := rfl
    rw [hd, truncateDescription, if_pos (Or.inl rfl)]
  have hfin := finalUrl_split oversizedTitleParams
  rw [htrunc] at hfin
  have hmin : minimalLength oversizedTitleParams = 4709 := by
    have h2 : (urlencode oversizedTitleParams.date).length = 10 := by decide
    have h3 : (urlencode oversizedTitleParams.source).length = 39 := by decide
    have h4 : (urlencode oversizedTitleParams.authors).length = 9 := by decide
    have h5 : (urlencode oversizedTitleParams.recordId).length = 2 := by decide
    have h6 : (urlencode oversizedTitleParams.commonsLicense).length = 9 := by decide
    have h7 : (urlencode oversizedTitleParams.destFile).length = 5 := by decide
    have h8 : (urlencode oversizedTitleParams.fileUrl).length = 50 := by decide
    rw [minimalLength_eq, encode_bigTitle_length, h2, h3, h4, h5, h6, h7, h8]
  rw [hres]
  show MAX_URL_LENGTH < (finalUrl oversizedTitleParams).length
  rw [hfin, hmin]
  decide

set_option maxRecDepth 8000 in
/-- Witness for C1 (amended) at `longDescParams`: short fixed fields and a
4000-character description of the letter `a`. -/
theorem c1_budget_invariant_witness :
    minimalLength longDescParams + 164 ≤ MAX_URL_LENGTH ∧
    (∀ c ∈ longDescParams.description, urlSafeChar c = true ∧ isSentTerm c = false) ∧
    (buildConstrainedUploadUrl longDescParams).url.length ≤ MAX_URL_LENGTH := by
  have hchars : ∀ c ∈ longDescParams.description,
      urlSafeChar c = true ∧ isSentTerm c = false := by
    intro c hc
    have hca : c = 'a' := List.eq_of_mem_replicate hc
    rw [hca]
    exact ⟨by decide, by decide⟩
  have hskel : minimalLength longDescParams + 164 ≤ MAX_URL_LENGTH := by decide
  exact ⟨hskel, hchars, c1_budget_invariant longDescParams hskel hchars⟩

/-! ## C5 -/

/-- With a budget below the truncation notice, no whole-block cut fits. -/
theorem multiTableCut_none (lines : List (List Char)) (m : Int)
    (idxs : List Nat) (h : m < (tablesTruncatedNote.length : Int)) :
    multiTableCut lines m idxs = none := by
  induction idxs with
  | nil => rfl
  | cons j rest ih =>
    rw [multiTableCut, if_neg, ih]
    rw [List.length_append]
    push_cast
    omega

/-- With a budget below the row-cut notice, no row candidate is accepted. -/
theorem rowCutCandidate_none (lines : List (List Char)) (m : Int) (i : Nat)
    (h : m < (tableRowNote.length : Int)) :
    rowCutCandidate lines m i = none := by
  simp only [rowCutCandidate]
  split
  · split
    · rename_i hcond
      exfalso
      obtain ⟨-, hle⟩ := hcond
      rw [List.length_append] at hle
      push_cast at hle
      omega
    · rfl
  · rfl

/-- With a budget below the row-cut notice, the whole row loop fails. -/
theorem rowCutLoop_none (lines : List (List Char)) (m : Int) (i : Nat)
    (h : m < (tableRowNote.length : Int)) :
    rowCutLoop lines m i = none := by
  induction i with
  | zero => rw [rowCutLoop, rowCutCandidate_none lines m 0 h]
  | succ k ih => rw [rowCutLoop, rowCutCandidate_none lines m (k + 1) h, ih]

set_option maxRecDepth 8000 in
/-- C5: the `truncateTables` cascade. Identity on empty or already-fitting
input; with several blocks whole blocks are removed from the end with the
truncation notice (three-block scenario: `Study` survives, `Analysis` is
cut); otherwise trailing row lines are removed with the closing marker and
notice, keeping the table-open marker (twenty-row scenario); and under a
budget of 10 — below every notice — any longer tables string collapses to
the fixed omission sentence. -/
theorem c5_truncate_tables_cascade :
    (∀ n : Int, truncateTables [] n = []) ∧
    (∀ t, ∀ n : Int, (t.length : Int) ≤ n → truncateTables t n = t) ∧
    (∀ t, (10 : Int) < (t.length : Int) → truncateTables t 10 = tablesOmittedNote) ∧
    (jsIncludes (str "! Study") (truncateTables threeBlockTables 120) = true ∧
      jsIncludes tablesTruncatedNote (truncateTables threeBlockTables 120) = true ∧
      jsIncludes (str "Analysis") (truncateTables threeBlockTables 120) = false) ∧
    (jsIncludes wikitableMarker (truncateTables manyRowTable 200) = true ∧
      jsIncludes (str "(Table truncated due to length constraints. See full metadata at source.)")
        (truncateTables manyRowTable 200) = true ∧
      (truncateTables manyRowTable 200).length ≤ 200) := by
  refine ⟨?_, ?_, ?_, ?_, ?_⟩
  · intro n
    rw [truncateTables, if_pos (Or.inl rfl)]
  · intro t n h
    rw [truncateTables, if_pos (Or.inr h)]
  · intro t hlen
    have hne : t ≠ [] := by
      intro he
      rw [he] at hlen
      simp at hlen
    rw [truncateTables, if_neg (by push_neg; exact ⟨hne, by omega⟩)]
    have hmc : ∀ lines idxs, multiTableCut lines 10 idxs = none := fun l i =>
      multiTableCut_none l 10 i (by decide)
    have hrc : ∀ lines i, rowCutLoop lines 10 i = none := fun l i =>
      rowCutLoop_none l 10 i (by decide)
    simp only [hmc, hrc, ite_self]
    rw [if_neg]
    rintro ⟨-, hle⟩
    rw [List.length_append] at hle
    push_cast at hle
    have : (0 : Int) ≤ ((jsJoin (str "\n")
        ((splitSeq (str "\n") t).take 2)).length : Int) := by positivity
    have hnote : ((tableRowNote.length : Nat) : Int) = 78 := by decide
    omega
  · exact ⟨by decide, by decide, by decide⟩
  · exact ⟨by decide, by decide, by decide⟩

set_option maxRecDepth 4000 in
/-- Witness for C5: the identity case and the tiny-budget omission case at
concrete inputs. -/
theorem c5_truncate_tables_cascade_witness :
    truncateTables (str "ab") 5 = str "ab" ∧
    truncateTables threeBlockTables 10 = tablesOmittedNote :=
  ⟨c5_truncate_tables_cascade.2.1 (str "ab") 5 (by decide),
    c5_truncate_tables_cascade.2.2.1 threeBlockTables (by decide)⟩

/-! ## C9 -/

/-- Trimming never lengthens a string. -/
theorem jsTrim_length_le (l : List Char) : (jsTrim l).length ≤ l.length := by
  have h1 := dropWhile_length_le wsChar l
  have h2 := dropWhile_length_le wsChar (l.dropWhile wsChar).reverse
  calc (jsTrim l).length
      = ((l.dropWhile wsChar).reverse.dropWhile wsChar).length := by
        rw [jsTrim, List.length_reverse]
    _ ≤ (l.dropWhile wsChar).reverse.length := h2
    _ = (l.dropWhile wsChar).length := by rw [List.length_reverse]
    _ ≤ l.length := h1

/-- Invariant of the paragraph loop: the accumulator stays empty or leaves
room for the truncation note. -/
theorem paraLoop_bound (m : Int) (ps : List (List Char)) (acc : List Char)
    (hacc : acc = [] ∨ (acc.length : Int) + (descTruncationNote.length : Int) ≤ m) :
    paraLoop m ps acc = [] ∨
      ((paraLoop m ps acc).length : Int) + (descTruncationNote.length : Int) ≤ m := by
  induction ps generalizing acc with
  | nil => exact hacc
  | cons p rest ih =>
    simp only [paraLoop]
    by_cases hacc0 : acc = []
    · simp only [hacc0, reduceIte]
      split
      · exact Or.inl rfl
      · rename_i hfit
        push_neg at hfit
        exact ih p (Or.inr hfit)
    · simp only [if_neg hacc0]
      split
      · exact hacc
      · rename_i hfit
        push_neg at hfit
        exact ih _ (Or.inr hfit)

/-- Invariant of the sentence loop: the accumulator stays empty or leaves
room for the ellipsis note. -/
theorem sentLoop_bound (m : Int) (ss : List (List Char)) (acc : List Char)
    (hacc : acc = [] ∨ (acc.length : Int) + (ellipsisNote.length : Int) ≤ m) :
    sentLoop m ss acc = [] ∨
      ((sentLoop m ss acc).length : Int) + (ellipsisNote.length : Int) ≤ m := by
  induction ss generalizing acc with
  | nil => exact hacc
  | cons s rest ih =>
    simp only [sentLoop]
    split
    · exact hacc
    · rename_i hfit
      push_neg at hfit
      exact ih _ (Or.inr hfit)

/-- C9 (amended): whenever `maxLength` strictly exceeds the ellipsis
notice's length (60), every path of `truncateDescription` respects the
bound `result.length ≤ maxLength`; and when `maxLength ≤ 60` on a
non-empty over-budget description with no paragraph break or sentence
terminator, the function returns exactly the notice, whose length is at
least `maxLength` (equality is possible, so the notice need not strictly
exceed the budget). -/
theorem c9_truncate_description_bound :
    (∀ desc : List Char, ∀ m : Int, (ellipsisNote.length : Int) < m →
      ((truncateDescription desc m).length : Int) ≤ m) ∧
    (∀ desc : List Char, ∀ m : Int, m ≤ (ellipsisNote.length : Int) →
      desc ≠ [] → m < (desc.length : Int) →
      (∀ c ∈ desc, c ≠ '\n') → (∀ c ∈ desc, isSentTerm c = false) →
      truncateDescription desc m = ellipsisNote ∧
        m ≤ ((truncateDescription desc m).length : Int)) := by
  constructor
  · intro desc m hm
    have hE : ((ellipsisNote.length : Nat) : Int) = 60 := by decide
    have hD : ((descTruncationNote.length : Nat) : Int) = 58 := by decide
    rw [truncateDescription]
    split
    · rename_i h0
      rcases h0 with h0 | h0
      · rw [h0]
        simp only [List.length_nil, Nat.cast_zero]
        omega
      · exact h0
    · by_cases hp0 : paraLoop m (splitSeq (str "\n\n") desc) [] = []
      · by_cases hs0 : sentLoop m
            (if matchSentences desc = [] then [desc] else matchSentences desc) [] = []
        · simp only [hp0, hs0, ne_eq, not_true_eq_false, if_false, reduceIte]
          rw [if_pos (show (0 : Int) < m - (ellipsisNote.length : Int) by omega)]
          rw [List.length_append, List.length_take]
          push_cast
          omega
        · simp only [hp0, ne_eq, not_true_eq_false, if_false, reduceIte, hs0,
            not_false_eq_true, if_true]
          have hs := sentLoop_bound m
            (if matchSentences desc = [] then [desc] else matchSentences desc) []
            (Or.inl rfl)
          rcases hs with hs | hs
          · exact absurd hs hs0
          · have ht := jsTrim_length_le (sentLoop m
              (if matchSentences desc = [] then [desc] else matchSentences desc) [])
            rw [List.length_append]
            push_cast at hs ⊢
            omega
      · simp only [ne_eq, hp0, not_false_eq_true, if_true]
        have hp := paraLoop_bound m (splitSeq (str "\n\n") desc) [] (Or.inl rfl)
        rcases hp with hp | hp
        · exact absurd hp hp0
        · rw [List.length_append]
          push_cast at hp ⊢
          omega
  · intro desc m hm hne hlong hnl hterm
    have htr := truncateDescription_no_boundaries desc m hnl hterm hlong hne
    have hE : ((ellipsisNote.length : Nat) : Int) = 60 := by decide
    rw [if_neg (by omega)] at htr
    rw [htr]
    exact ⟨rfl, by omega⟩

/-- Witness for C9 at concrete inputs: a 61-budget over-long description on
the bound side, and a 50-budget terminator-free description on the
notice side. -/
theorem c9_truncate_description_bound_witness :
    ((truncateDescription (List.replicate 200 'x') 61).length : Int) ≤ 61 ∧
    (truncateDescription (List.replicate 70 'x') 50 = ellipsisNote ∧
      (50 : Int) ≤ ((truncateDescription (List.replicate 70 'x') 50).length : Int)) :=
  ⟨c9_truncate_description_bound.1 (List.replicate 200 'x') 61 (by decide),
    c9_truncate_description_bound.2 (List.replicate 70 'x') 50 (by decide) (by decide)
      (by decide)
      (fun c hc => by rw [List.eq_of_mem_replicate hc]; decide)
      (fun c hc => by rw [List.eq_of_mem_replicate hc]; decide)⟩

/-- C9 counterexample: with `maxLength = 59 ≤ 60` and the over-budget
description `"a\n\n" ++ 100 x's`, the paragraph path accepts the
one-character first paragraph and returns it with the paragraph truncation
note — not the ellipsis notice the claim predicts. -/
theorem c9_counterexample :
    (59 : Int) ≤ (ellipsisNote.length : Int) ∧
    (59 : Int) < (shortParaDesc.length : Int) ∧
    truncateDescription shortParaDesc 59 = str "a" ++ descTruncationNote ∧
    truncateDescription shortParaDesc 59 ≠ ellipsisNote := by
  refine ⟨by decide, by decide, by decide, by decide⟩

/-! ## C7, C6, C10 -/

set_option maxRecDepth 4000 in
/-- C7: `convert("<p>This is <strong>bold</strong> text</p>")` yields the
description `This is \x27\x27\x27bold\x27\x27\x27 text` (strong becomes triple-apostrophe
bold, the closing `</p>` a paragraph break, the opening `<p>` is stripped,
and the whitespace pass trims and drops empty lines) and empty tables. -/
theorem c7_roundtrip_markup :
    cleanDescription (str "<p>This is <strong>bold</strong> text</p>") =
      { description := str "This is \x27\x27\x27bold\x27\x27\x27 text", tables := [] } := by
  decide

set_option maxRecDepth 8000 in
/-- C6: on a description with one `<table>` (header `Study`, data cell
`Ultrastructure ...`) between two paragraphs, the converter returns only the
paragraphs' text as description, a well-formed wiki-table block (with
`! Study`, the `| Ultrastructure ...` line, and the closing marker) as
tables, and the description does not contain the wikitable marker. -/
theorem c6_table_isolation :
    (cleanDescription tableScenarioHtml).description =
      str "Intro paragraph.\nTrailing paragraph." ∧
    (cleanDescription tableScenarioHtml).tables =
      wikitableMarker ++ str "\n! Study\n|-\n| Ultrastructure of the immune synapse\n|\x7d" ∧
    jsIncludes (str "! Study") (cleanDescription tableScenarioHtml).tables = true ∧
    jsIncludes (str "| Ultrastructure") (cleanDescription tableScenarioHtml).tables = true ∧
    jsIncludes wikitableMarker (cleanDescription tableScenarioHtml).description = false := by
  refine ⟨by decide, by decide, by decide, by decide, by decide⟩

set_option maxRecDepth 4000 in
/-- C10: a `<table>` with no `<tr>` rows (or no matchable content) is still
removed from the prose but converts to the empty string, so `tables` is not
a wiki-table block: a single rowless table gives empty `tables`, and two
give just the blank-line separator. -/
theorem c10_rowless_tables :
    convertTableToWikiMarkup (str "<table></table>") = [] ∧
    convertTableToWikiMarkup (str "<table><td>x</td></table>") = [] ∧
    (cleanDescription (str "<p>Hi</p><table></table>")).description = str "Hi" ∧
    (cleanDescription (str "<p>Hi</p><table></table>")).tables = [] ∧
    (cleanDescription (str "<table></table><table></table>")).tables = str "\n\n" := by
  refine ⟨by decide, by decide, by decide, by decide, by decide⟩

/-! ## C8 -/

/-- Every character emitted by the tag stripper comes from its input. -/
theorem stripTagsAux_subset (fuel : Nat) (l : List Char) :
    ∀ c ∈ stripTagsAux fuel l, c ∈ l := by
  induction fuel generalizing l with
  | zero => cases l <;> simp [stripTagsAux]
  | succ f ih =>
    cases l with
    | nil => simp [stripTagsAux]
    | cons x xs =>
      intro c hc
      simp only [stripTagsAux] at hc
      by_cases hx : x = '<'
      · rw [if_pos hx] at hc
        cases hdw : xs.dropWhile (fun c => c ≠ '>') with
        | nil =>
          simp only [hdw] at hc
          rcases List.mem_cons.mp hc with hcx | hcs
          · exact hcx ▸ List.mem_cons_self x xs
          · exact List.mem_cons_of_mem x (ih xs c hcs)
        | cons y b =>
          simp only [hdw] at hc
          by_cases ha : xs.takeWhile (fun c => c ≠ '>') = []
          · rw [if_pos ha] at hc
            rcases List.mem_cons.mp hc with hcx | hcs
            · exact hcx ▸ List.mem_cons_self x xs
            · exact List.mem_cons_of_mem x (ih xs c hcs)
          · rw [if_neg ha] at hc
            have hsub : b ⊆ xs := by
              have hsl : List.Sublist (xs.dropWhile fun c => c ≠ '>') xs :=
                List.dropWhile_sublist _
              rw [hdw] at hsl
              exact fun d hd => hsl.subset (List.mem_cons_of_mem y hd)
            exact List.mem_cons_of_mem x (hsub (ih b c hc))
      · rw [if_neg hx] at hc
        rcases List.mem_cons.mp hc with hcx | hcs
        · exact hcx ▸ List.mem_cons_self x xs
        · exact List.mem_cons_of_mem x (ih xs c hcs)

/-- The stripper leaves a leading `>` in place. -/
theorem stripTagsAux_head_gt (f : Nat) (zs : List Char) :
    ∃ t, stripTagsAux f ('>' :: zs) = '>' :: t := by
  cases f with
  | zero => exact ⟨zs, rfl⟩
  | succ f' => exact ⟨stripTagsAux f' zs, by simp [stripTagsAux]⟩

/-- Core of the C8 amendment: with enough fuel (the input length), the
output of the stripping pass never matches `<[^>]+>` again. -/
theorem stripTagsAux_no_tag (fuel : Nat) : ∀ l : List Char, l.length ≤ fuel →
    containsHtmlTag (stripTagsAux fuel l) = false := by
  induction fuel with
  | zero =>
    intro l hl
    cases l with
    | nil => simp [stripTagsAux, containsHtmlTag]
    | cons x xs => simp at hl
  | succ f ih =>
    intro l hl
    cases l with
    | nil => simp [stripTagsAux, containsHtmlTag]
    | cons x xs =>
      have hxs : xs.length ≤ f := by
        simp only [List.length_cons] at hl
        omega
      simp only [stripTagsAux]
      by_cases hx : x = '<'
      · rw [if_pos hx]
        cases hdw : xs.dropWhile (fun c => c ≠ '>') with
        | nil =>
          simp only [hdw]
          have hall : ∀ c ∈ xs, c ≠ '>' := by
            intro c hc
            have := List.dropWhile_eq_nil_iff.mp hdw c hc
            simpa using this
          have hdw2 : (stripTagsAux f xs).dropWhile (fun c => c ≠ '>') = [] :=
            List.dropWhile_eq_nil_iff.mpr fun c hc => by
              simpa using hall c (stripTagsAux_subset f xs c hc)
          simp only [containsHtmlTag, hdw2, List.isEmpty_nil, Bool.not_true, Bool.and_false,
            Bool.false_or]
          exact ih xs hxs
        | cons y b =>
          simp only [hdw]
          by_cases ha : xs.takeWhile (fun c => c ≠ '>') = []
          · rw [if_pos ha]
            obtain ⟨zs, hzs⟩ : ∃ zs, xs = '>' :: zs := by
              cases hxs0 : xs with
              | nil =>
                rw [hxs0] at hdw
                simp at hdw
              | cons z zt =>
                by_cases hz : z = '>'
                · exact ⟨zt, by rw [hz]⟩
                · rw [hxs0] at ha
                  simp [List.takeWhile_cons, hz] at ha
            have hS := ih xs hxs
            rw [hzs] at hS ⊢
            obtain ⟨t, ht⟩ := stripTagsAux_head_gt f zs
            rw [ht] at hS ⊢
            simp only [containsHtmlTag, decide_eq_false (by decide : ¬(Char.ofNat 62 = '<')),
              Bool.false_and, Bool.false_or] at hS
            simp only [containsHtmlTag, List.takeWhile_cons]
            simp [hS]
          · rw [if_neg ha]
            have hb : b.length ≤ f := by
              have hsl := dropWhile_length_le (fun c => decide (c ≠ '>')) xs
              rw [hdw] at hsl
              simp only [List.length_cons] at hsl
              omega
            exact ih b hb
      · rw [if_neg hx]
        simp only [containsHtmlTag, decide_eq_false hx, Bool.false_and, Bool.false_or]
        exact ih xs hxs

/-- C8 (amended): after the recognized-tag substitutions, the stripping pass
`text.replace(/<[^>]+>/g, "")` removes every tag: its output never contains
a `<[^>]+>` match again, for every input. The final description can regain
angle-bracket text only through the later entity decoding (see the
counterexample). -/
theorem c8_strip_removes_tags (l : List Char) :
    containsHtmlTag (stripTags l) = false :=
  stripTagsAux_no_tag l.length l le_rfl

/-- Witness for C8 (amended) at a concrete input that exercises the
stripper. -/
theorem c8_strip_removes_tags_witness :
    containsHtmlTag (stripTags (str "<a<b>>x<unclosed y")) = false :=
  c8_strip_removes_tags (str "<a<b>>x<unclosed y")

/-- C8 counterexample: the input `&lt;b&gt;` contains no tag, yet the
returned description is the literal `<b>`, which matches `<[^>]+>` — the
entities are decoded after the tag-stripping pass, so the final output is
not free of tag-shaped text. -/
theorem c8_counterexample :
    (cleanDescription (str "&lt;b&gt;")).description = str "<b>" ∧
    containsHtmlTag (cleanDescription (str "&lt;b&gt;")).description = true := by
  refine ⟨by decide, by decide⟩
